import Mathlib

/-!
Shallow embedding of `authkeys.go` (kindlyops/authkeys), an LDAP lookup tool
that either prints a single user's SSH public keys (`SingleUser` mode,
`listUsers = false`) or emits a JSON roster of a group's members
(`GroupMembers` mode, `listUsers = true`).

Strings are modelled at character level (`List Char`); the string data the
program manipulates with `strings.Index` / slicing is ASCII, where Go's byte
offsets and character offsets coincide.  Go's `log.Fatalf` is modelled as a
classified fatal error (`RunResult.fatal`, a `QueryError` for the
post-search checks), and an out-of-range index or slice is modelled as
`RunResult.panicked` / `Option.none`.  The LDAP connection is modelled as a
search function `SearchReq → List Entry`; the fallback query of group mode
is issued through the same function, mirroring reuse of the one connection.
-/

set_option linter.unusedVariables false

namespace Authkeys

/-- Character-level model of a Go string. -/
abbrev Str := List Char

/-- Offset of the first occurrence of `sub` in the second argument, `none`
when `sub` does not occur.  This is the search underlying `strings.Index`. -/
def findSub (sub : Str) : Str → Option Nat
  | [] => if sub.isPrefixOf [] then some 0 else none
  | c :: rest =>
    if sub.isPrefixOf (c :: rest) then some 0
    else (findSub sub rest).map (· + 1)

/-- Go `strings.Index s sub`: offset of the first occurrence, `-1` when
absent. -/
def goIndex (s sub : Str) : Int :=
  match findSub sub s with
  | some n => (n : Int)
  | none => -1

/-- Go `strings.Contains s sub`. -/
def containsSub (s sub : Str) : Bool :=
  (findSub sub s).isSome

/-- Go `strings.Split s sep` for a one-character separator.  The result is
never empty and its head is the prefix of `s` before the first separator. -/
def goSplit (sep : Char) : Str → List Str
  | [] => [[]]
  | c :: rest =>
    match goSplit sep rest with
    | [] => [[]]
    | h :: r => if c = sep then [] :: h :: r else (c :: h) :: r

/-- Go string slicing `s[lo:hi]`: defined exactly when `0 ≤ lo ≤ hi ≤ len s`;
`none` models the out-of-range runtime panic. -/
def goSlice (s : Str) (lo hi : Int) : Option Str :=
  if 0 ≤ lo ∧ lo ≤ hi ∧ hi ≤ (s.length : Int) then
    some ((s.take hi.toNat).drop lo.toNat)
  else none

/-- The literal `cn := "cn="` of `authkeys.go` line 180. -/
def cnMarker : Str := ("cn=" : String).data

/-- The literal `","` used to terminate the extracted group name. -/
def commaStr : Str := ("," : String).data

/-- The literal `"@"` of the identity-normalization step. -/
def atStr : Str := ("@" : String).data

/-- The literal attribute name `"memberOf"` (lines 184, 191, 199). -/
def memberOfAttr : Str := ("memberOf" : String).data

/-- The literal attribute name `"uid"` (lines 215–220). -/
def uidAttr : Str := ("uid" : String).data

/-- The literal attribute name `"uidNumber"`. -/
def uidNumberAttr : Str := ("uidNumber" : String).data

/-- The literal attribute name `"gidNumber"`. -/
def gidNumberAttr : Str := ("gidNumber" : String).data

/-- The literal attribute name `"homeDirectory"`. -/
def homeDirectoryAttr : Str := ("homeDirectory" : String).data

/-- The literal attribute name `"loginShell"`. -/
def loginShellAttr : Str := ("loginShell" : String).data

/-- The reduced attribute projection of line 92 (minimal-attributes mode). -/
def minimalAttributes : List Str :=
  [uidAttr, uidNumberAttr, gidNumberAttr, homeDirectoryAttr, loginShellAttr]

/-- The full attribute projection of line 94. -/
def fullAttributes : List Str :=
  [uidAttr, uidNumberAttr, gidNumberAttr, memberOfAttr, homeDirectoryAttr, loginShellAttr]

/-- A raw directory entry: a mapping from attribute name to the ordered list
of its string values (`ldap.Entry`). -/
structure Entry where
  attrs : List (Str × List Str)
deriving DecidableEq

/-- First-match lookup over an entry's attribute list. -/
def lookupAttr : List (Str × List Str) → Str → List Str
  | [], _ => []
  | (n, vs) :: rest, name => if n = name then vs else lookupAttr rest name

/-- `ldap.Entry.GetAttributeValues`: values of the first attribute with the
given name, or the empty list. -/
def getAttributeValues (e : Entry) (name : Str) : List Str :=
  lookupAttr e.attrs name

/-- `ldap.Entry.GetAttributeValue`: the first value of the attribute, or the
empty string. -/
def getAttributeValue (e : Entry) (name : Str) : Str :=
  (getAttributeValues e name).headD []

/-- The data of a fallback search request built at lines 187–193: the filter
`(<filterAttr>=<filterVal>)` and the requested attribute projection.  Base
DN, scope and limits are the fixed values of `NewSearchRequest` and carry no
information. -/
structure SearchReq where
  filterAttr : Str
  filterVal : Str
  attributes : List Str
deriving DecidableEq

/-- The error classification of the spec's taxonomy that the post-search
code can raise (via `log.Fatalf`). -/
inductive MainError where
  | queryError : Str → MainError
deriving DecidableEq

/-- Outcome of a code fragment: normal value, `log.Fatal` with a classified
error, or a runtime panic (out-of-range index/slice). -/
inductive RunResult (α : Type) where
  | ok : α → RunResult α
  | fatal : MainError → RunResult α
  | panicked : RunResult α
deriving DecidableEq

/-- The `User` output record of `authkeys.go` lines 40–47. -/
structure User where
  Uid : Str
  UidNumber : Str
  GidNumber : Str
  MemberOf : List Str
  HomeDirectory : Str
  Shell : Str
deriving DecidableEq

/-- `log.Fatalf("No entries returned from LDAP")`, line 174. -/
def noEntriesMsg : Str := ("No entries returned from LDAP" : String).data

/-- `log.Fatalf("Too many entries returned from LDAP")`, line 176. -/
def tooManyMsg : Str := ("Too many entries returned from LDAP" : String).data

/-- Group-name extraction of lines 206–208:
`rawMemberOf[group][cnLoc+len(cn) : termLoc]` with
`cnLoc = strings.Index(v, "cn=")` and `termLoc = strings.Index(v, ",")`;
`none` models the slice panic. -/
def extractGroupName (s : Str) : Option Str :=
  goSlice s (goIndex s cnMarker + (cnMarker.length : Int)) (goIndex s commaStr)

/-- The extraction loop of lines 205–209 over all raw membership values;
`none` as soon as one value panics. -/
def extractAll : List Str → Option (List Str)
  | [] => some []
  | v :: rest =>
    match extractGroupName v with
    | none => none
    | some g => (extractAll rest).map (g :: ·)

/-- Identity normalization of lines 214–221: truncate the `uid` value at the
first `@` (`strings.Split(email, "@")`, component 0), otherwise keep it. -/
def normalizeUid (s : Str) : Str :=
  if containsSub s atStr then (goSplit '@' s).headD [] else s

/-- Lines 184–201: obtain the raw membership values for one entry.  The
entry's own `memberOf` values are read first; when the minimal-attributes
flag is set, a fallback search filtered on the configured identity attribute
(value taken at index 0 of the entry's values — a panic when there is none)
and projecting only `memberOf` is issued over the same connection, and each
of its result entries overwrites the raw values in turn.  The second
component is the list of fallback requests issued. -/
def resolveRawMemberOf (useMin : Bool) (userAttribute : Str)
    (search : SearchReq → List Entry) (entry : Entry) :
    RunResult (List Str) × List SearchReq :=
  let raw := getAttributeValues entry memberOfAttr
  if useMin then
    match getAttributeValues entry userAttribute with
    | [] => (RunResult.panicked, [])
    | v :: _ =>
      let req : SearchReq := ⟨userAttribute, v, [memberOfAttr]⟩
      let userSr := search req
      (RunResult.ok (userSr.foldl (fun _ ue => getAttributeValues ue memberOfAttr) raw), [req])
  else (RunResult.ok raw, [])

/-- Lines 203–233: build one `User` from the resolved raw membership values
and the entry.  Extraction panics propagate; an empty extracted group list
is replaced by the single originally-queried group name (lines 211–213). -/
def buildUser (groupPtr : Str) (rawMemberOf : List Str) (entry : Entry) :
    RunResult User :=
  match extractAll rawMemberOf with
  | none => RunResult.panicked
  | some ms =>
    let memberOf := if ms = [] then [groupPtr] else ms
    let username := normalizeUid (getAttributeValue entry uidAttr)
    RunResult.ok
      { Uid := username
        UidNumber := getAttributeValue entry uidNumberAttr
        GidNumber := getAttributeValue entry gidNumberAttr
        MemberOf := memberOf
        HomeDirectory := getAttributeValue entry homeDirectoryAttr
        Shell := getAttributeValue entry loginShellAttr }

/-- Full processing of one group-mode entry (lines 183–233): resolve raw
membership (possibly issuing the fallback query), then build the user. -/
def processEntry (useMin : Bool) (groupPtr userAttribute : Str)
    (search : SearchReq → List Entry) (entry : Entry) :
    RunResult User × List SearchReq :=
  match resolveRawMemberOf useMin userAttribute search entry with
  | (RunResult.ok raw, qs) => (buildUser groupPtr raw entry, qs)
  | (RunResult.fatal err, qs) => (RunResult.fatal err, qs)
  | (RunResult.panicked, qs) => (RunResult.panicked, qs)

/-- The group-mode loop over all returned entries, in order, accumulating
the users and the fallback requests; the first fatal error or panic aborts
the run. -/
def runGroupMode (useMin : Bool) (groupPtr userAttribute : Str)
    (search : SearchReq → List Entry) :
    List Entry → RunResult (List User) × List SearchReq
  | [] => (RunResult.ok [], [])
  | e :: rest =>
    match processEntry useMin groupPtr userAttribute search e with
    | (RunResult.ok u, qs) =>
      match runGroupMode useMin groupPtr userAttribute search rest with
      | (RunResult.ok us, qs2) => (RunResult.ok (u :: us), qs ++ qs2)
      | (RunResult.fatal err, qs2) => (RunResult.fatal err, qs ++ qs2)
      | (RunResult.panicked, qs2) => (RunResult.panicked, qs ++ qs2)
    | (RunResult.fatal err, qs) => (RunResult.fatal err, qs)
    | (RunResult.panicked, qs) => (RunResult.panicked, qs)

/-- Mode-dependent output: raw key lines, or the roster of users. -/
inductive Output where
  | keys : List Str → Output
  | users : List User → Output
deriving DecidableEq

/-- Lines 173–248: the post-search phase.  Zero entries is always fatal
(line 174); more than one entry is fatal in single-user mode only
(lines 175–176, the Go condition `!listUsers && (len(sr.Entries) > 1)`);
group mode then normalizes every entry in order, and single-user mode
collects the key attribute's values of every entry in order. -/
def runNormalizer (listUsers useMin : Bool) (groupPtr userAttribute keyAttribute : Str)
    (search : SearchReq → List Entry) (entries : List Entry) :
    RunResult Output × List SearchReq :=
  if entries.length = 0 then (RunResult.fatal (MainError.queryError noEntriesMsg), [])
  else if !listUsers && decide (1 < entries.length) then
    (RunResult.fatal (MainError.queryError tooManyMsg), [])
  else if listUsers then
    match runGroupMode useMin groupPtr userAttribute search entries with
    | (RunResult.ok us, qs) => (RunResult.ok (Output.users us), qs)
    | (RunResult.fatal err, qs) => (RunResult.fatal err, qs)
    | (RunResult.panicked, qs) => (RunResult.panicked, qs)
  else
    (RunResult.ok (Output.keys ((entries.map (fun e => getAttributeValues e keyAttribute)).flatten)), [])

/-- Which attribute of an entry can be non-empty: entries returned for a
query with projection `proj` carry values only for attributes in `proj`. -/
def respectsProjection (proj : List Str) (e : Entry) : Prop :=
  ∀ a, a ∉ proj → getAttributeValues e a = []

/-- The fatal stages of `main` after the connection is established at
lines 111–113 (each exits through `log.Fatalf`). -/
inductive Stage where
  | rootCARead
  | rootCAAppend
  | startTLS
  | bind
  | search
  | postSearch
  | marshal
deriving DecidableEq

/-- How `main` terminates.  In Go, `log.Fatalf` calls `os.Exit(1)`, which
terminates the process immediately and does not run deferred functions; a
panic unwinds the stack and does run them, as does a normal return. -/
inductive GoExit where
  | normalReturn
  | osExit : Stage → GoExit
  | panicked
deriving DecidableEq

/-- Whether deferred functions run for a given exit: yes on normal return
and on panic, no on `os.Exit` (the `log.Fatal` path). -/
def defersRun : GoExit → Bool
  | GoExit.normalReturn => true
  | GoExit.panicked => true
  | GoExit.osExit _ => false

/-- Whether the deferred `l.Close()` of line 113 runs for a given exit. -/
def connCloseRuns (e : GoExit) : Bool :=
  defersRun e

/-- Success/failure of each fallible step of `main` after the connection is
established (lines 113–248), as booleans: whether a trust-root file is
configured and whether its read/parse succeeds, whether `StartTLS`
succeeds, whether a bind is configured and succeeds, whether the primary
search succeeds, and whether the JSON marshal succeeds. -/
structure ConnPhase where
  rootCAConfigured : Bool
  rootCAReadOk : Bool
  rootCAAppendOk : Bool
  tlsOk : Bool
  bindConfigured : Bool
  bindOk : Bool
  searchOk : Bool
  marshalOk : Bool
deriving DecidableEq

/-- Control flow of `main` from line 113 to the end: each failing step exits
through `log.Fatalf` (`os.Exit`); a panic during normalization propagates;
otherwise the function returns normally. -/
def mainAfterConn (p : ConnPhase) (listUsers useMin : Bool)
    (groupPtr userAttribute keyAttribute : Str)
    (search : SearchReq → List Entry) (entries : List Entry) : GoExit :=
  if p.rootCAConfigured && !p.rootCAReadOk then GoExit.osExit Stage.rootCARead
  else if p.rootCAConfigured && !p.rootCAAppendOk then GoExit.osExit Stage.rootCAAppend
  else if !p.tlsOk then GoExit.osExit Stage.startTLS
  else if p.bindConfigured && !p.bindOk then GoExit.osExit Stage.bind
  else if !p.searchOk then GoExit.osExit Stage.search
  else
    match (runNormalizer listUsers useMin groupPtr userAttribute keyAttribute search entries).1 with
    | RunResult.fatal _ => GoExit.osExit Stage.postSearch
    | RunResult.panicked => GoExit.panicked
    | RunResult.ok _ =>
      if listUsers && !p.marshalOk then GoExit.osExit Stage.marshal
      else GoExit.normalReturn

/-! Concrete fixtures used by the witness theorems. -/

/-- Fixture: a well-formed group DN. -/
def sampleDN : Str := ("cn=admins,ou=groups,dc=example,dc=com" : String).data

/-- Fixture: the group common name of `sampleDN`. -/
def adminsName : Str := ("admins" : String).data

/-- Fixture: the remainder of `sampleDN` after the first comma. -/
def restDN : Str := ("ou=groups,dc=example,dc=com" : String).data

/-- Fixture: a plain username. -/
def aliceStr : Str := ("alice" : String).data

/-- Fixture: an email-shaped identity. -/
def bobEmail : Str := ("bob@example.com" : String).data

/-- Fixture: the local part of `bobEmail`. -/
def bobStr : Str := ("bob" : String).data

/-- Fixture: an identity-attribute name outside the minimal projection. -/
def mailAttr : Str := ("mail" : String).data

/-- Fixture: an entry with membership and identity populated. -/
def sampleEntry : Entry :=
  ⟨[(memberOfAttr, [sampleDN]), (uidAttr, [aliceStr])]⟩

/-- Fixture: an entry as returned by a minimal-projection query — identity
but no `memberOf` values. -/
def minimalEntry : Entry :=
  ⟨[(uidAttr, [aliceStr])]⟩

/-- Fixture: an entry with no attributes at all. -/
def emptyEntry : Entry := ⟨[]⟩

/-- Fixture: an entry carrying both a `uid` and a `mail` identity value. -/
def richEntry : Entry :=
  ⟨[(uidAttr, [aliceStr]), (mailAttr, [bobEmail]), (memberOfAttr, [])]⟩

/-- Fixture: a directory returning nothing. -/
def emptySearch : SearchReq → List Entry := fun _ => []

/-- Fixture: a directory answering every request with `sampleEntry`. -/
def fallbackStub : SearchReq → List Entry := fun _ => [sampleEntry]

/-- Fixture: a key attribute name. -/
def keyAttrName : Str := ("sshPublicKey" : String).data

/-- Fixture: the user built from `sampleEntry` with no raw membership. -/
def sampleUserEmpty : User :=
  ⟨aliceStr, [], [], [adminsName], [], []⟩

/-- Fixture: an entry whose membership DN has no comma, so group-name
extraction panics on it. -/
def noCommaEntry : Entry :=
  ⟨[(memberOfAttr, [("cn=admins" : String).data]), (uidAttr, [aliceStr])]⟩

/-! Helper lemmas about the string primitives. -/

/-- A list is a prefix of itself followed by anything. -/
theorem isPrefixOf_self_append (l r : Str) : l.isPrefixOf (l ++ r) = true := by
  rw [List.isPrefixOf_iff_prefix]
  exact List.prefix_append l r

/-- `findSub` finds a leading occurrence at offset `0`. -/
theorem findSub_append_self (sub r : Str) (h : sub ≠ []) :
    findSub sub (sub ++ r) = some 0 := by
  cases sub with
  | nil => exact absurd rfl h
  | cons a as => simp [findSub, isPrefixOf_self_append]

/-- Prefix test against a singleton pattern is a head comparison. -/
theorem isPrefixOf_singleton (c a : Char) (t : Str) :
    [c].isPrefixOf (a :: t) = (c == a) := by
  simp [List.isPrefixOf]

/-- The first occurrence of a character that is absent from `l` in
`l ++ c :: r` is at offset `l.length`. -/
theorem findSub_singleton_append (c : Char) (l r : Str) (h : c ∉ l) :
    findSub [c] (l ++ c :: r) = some l.length := by
  induction l with
  | nil => simp [findSub, isPrefixOf_singleton]
  | cons a as ih =>
    have hca : c ≠ a := by
      rintro rfl
      exact h (List.mem_cons_self c as)
    have h2 : c ∉ as := fun hm => h (List.mem_cons_of_mem a hm)
    simp [findSub, isPrefixOf_singleton, hca, ih h2]

/-- A single-character pattern is found exactly when the character occurs. -/
theorem findSub_singleton_isSome (c : Char) (s : Str) :
    (findSub [c] s).isSome = true ↔ c ∈ s := by
  induction s with
  | nil => simp [findSub, List.isPrefixOf]
  | cons a t ih =>
    by_cases hca : c = a
    · subst hca
      simp [findSub, isPrefixOf_singleton]
    · simp [findSub, isPrefixOf_singleton, hca, ih]

/-- A found occurrence of a non-empty pattern starts inside the string. -/
theorem findSub_lt_length (sub : Str) (h : sub ≠ []) :
    ∀ (s : Str) (n : Nat), findSub sub s = some n → n < s.length := by
  intro s
  induction s with
  | nil =>
    intro n hn
    obtain ⟨a, as, rfl⟩ : ∃ a as, sub = a :: as := by
      cases sub with
      | nil => exact absurd rfl h
      | cons a as => exact ⟨a, as, rfl⟩
    simp [findSub, List.isPrefixOf] at hn
  | cons c t ih =>
    intro n hn
    rw [findSub] at hn
    split at hn
    · cases hn
      simp
    · obtain ⟨m, hm, rfl⟩ := Option.map_eq_some'.mp hn
      simpa using Nat.succ_lt_succ (ih m hm)

/-- `goIndex` never returns anything below `-1`. -/
theorem goIndex_ge_neg_one (s sub : Str) : -1 ≤ goIndex s sub := by
  unfold goIndex
  cases h : findSub sub s with
  | none => simp
  | some n =>
    simp only []
    omega

/-- A non-negative `goIndex` of a non-empty pattern is inside the string. -/
theorem goIndex_lt_length (s sub : Str) (hsub : sub ≠ []) (h : 0 ≤ goIndex s sub) :
    goIndex s sub < (s.length : Int) := by
  cases hf : findSub sub s with
  | none =>
    have hg : goIndex s sub = -1 := by
      unfold goIndex
      rw [hf]
    omega
  | some n =>
    have hg : goIndex s sub = (n : Int) := by
      unfold goIndex
      rw [hf]
    have hlt := findSub_lt_length sub hsub s n hf
    omega

/-- A fold that replaces the accumulator keeps the last mapped value. -/
theorem foldl_replace_getLastD {α β : Type} (f : α → β) (l : List α) (init : β) :
    l.foldl (fun _ x => f x) init = (l.map f).getLastD init := by
  induction l generalizing init with
  | nil => rfl
  | cons a t ih => rw [List.foldl_cons, ih, List.map_cons, List.getLastD_cons]

/-- `goSplit` never returns the empty list. -/
theorem goSplit_ne_nil (sep : Char) (s : Str) : goSplit sep s ≠ [] := by
  cases s with
  | nil => simp [goSplit]
  | cons c t =>
    cases hg : goSplit sep t with
    | nil => simp [goSplit, hg]
    | cons h r =>
      by_cases hc : c = sep <;> simp [goSplit, hg, hc]

/-- The head of `goSplit` is the prefix before the first separator. -/
theorem goSplit_headD (sep : Char) (s : Str) :
    (goSplit sep s).headD [] = s.takeWhile (fun c => c != sep) := by
  induction s with
  | nil => rfl
  | cons c t ih =>
    cases hg : goSplit sep t with
    | nil => exact absurd hg (goSplit_ne_nil sep t)
    | cons h r =>
      rw [hg] at ih
      by_cases hc : c = sep
      · subst hc
        simp [goSplit, hg, List.takeWhile_cons]
      · simp only [goSplit, hg, if_neg hc, List.takeWhile_cons]
        simp only [List.headD_cons] at ih
        simp [hc, ih]

/-! Helper lemmas about the normalizer components. -/

/-- Resolving raw membership never raises a classified error. -/
theorem resolveRawMemberOf_ne_fatal (useMin : Bool) (ua : Str)
    (search : SearchReq → List Entry) (e : Entry) (err : MainError) :
    (resolveRawMemberOf useMin ua search e).1 ≠ RunResult.fatal err := by
  cases useMin with
  | false => simp [resolveRawMemberOf]
  | true =>
    cases hv : getAttributeValues e ua <;> simp [resolveRawMemberOf, hv]

/-- Building a user never raises a classified error. -/
theorem buildUser_ne_fatal (g : Str) (raw : List Str) (e : Entry) (err : MainError) :
    buildUser g raw e ≠ RunResult.fatal err := by
  cases hx : extractAll raw <;> simp [buildUser, hx]

/-- Processing one entry never raises a classified error. -/
theorem processEntry_ne_fatal (useMin : Bool) (g ua : Str)
    (search : SearchReq → List Entry) (e : Entry) (err : MainError) :
    (processEntry useMin g ua search e).1 ≠ RunResult.fatal err := by
  have hne := resolveRawMemberOf_ne_fatal useMin ua search e
  rcases hr : resolveRawMemberOf useMin ua search e with ⟨r, qs⟩
  cases r with
  | ok raw => simp [processEntry, hr, buildUser_ne_fatal]
  | fatal err2 =>
    exact absurd (by rw [hr]) (hne err2)
  | panicked => simp [processEntry, hr]

/-- The group-mode loop never raises a classified error (in this model the
fallback search function is total). -/
theorem runGroupMode_ne_fatal (useMin : Bool) (g ua : Str)
    (search : SearchReq → List Entry) :
    ∀ (entries : List Entry) (err : MainError),
      (runGroupMode useMin g ua search entries).1 ≠ RunResult.fatal err := by
  intro entries
  induction entries with
  | nil =>
    intro err h
    simp [runGroupMode] at h
  | cons e rest ih =>
    intro err h
    rw [runGroupMode] at h
    rcases hp : processEntry useMin g ua search e with ⟨r, qs⟩
    rw [hp] at h
    cases r with
    | ok u =>
      rcases hrest : runGroupMode useMin g ua search rest with ⟨rr, qs2⟩
      rw [hrest] at h
      cases rr with
      | ok us => simp at h
      | fatal err2 =>
        apply ih err2
        rw [hrest]
      | panicked => simp at h
    | fatal err2 =>
      apply processEntry_ne_fatal useMin g ua search e err2
      rw [hp]
    | panicked => simp at h

/-- When the group-mode loop succeeds, it produced one user per entry. -/
theorem runGroupMode_ok_length (useMin : Bool) (g ua : Str)
    (search : SearchReq → List Entry) :
    ∀ (entries : List Entry) (us : List User),
      (runGroupMode useMin g ua search entries).1 = RunResult.ok us →
      us.length = entries.length := by
  intro entries
  induction entries with
  | nil =>
    intro us h
    simp [runGroupMode] at h
    subst h
    rfl
  | cons e rest ih =>
    intro us h
    rw [runGroupMode] at h
    rcases hp : processEntry useMin g ua search e with ⟨r, qs⟩
    rw [hp] at h
    cases r with
    | ok u =>
      rcases hrest : runGroupMode useMin g ua search rest with ⟨rr, qs2⟩
      rw [hrest] at h
      cases rr with
      | ok us2 =>
        simp at h
        have h2 := ih us2 (by rw [hrest])
        subst h
        simp [h2]
      | fatal err2 => simp at h
      | panicked => simp at h
    | fatal err2 => simp at h
    | panicked => simp at h

/-- The comma literal as an explicit character list. -/
theorem commaStr_eq : commaStr = [','] := rfl

/-- The `@` literal as an explicit character list. -/
theorem atStr_eq : atStr = ['@'] := rfl

/-- Slicing a concatenation at the borders of its middle part yields the
middle part. -/
theorem goSlice_middle (l mid r : Str) :
    goSlice (l ++ (mid ++ r)) (l.length : Int) (((l ++ mid).length : Nat) : Int)
      = some mid := by
  unfold goSlice
  rw [if_pos]
  · simp only [Int.toNat_natCast]
    rw [← List.append_assoc, List.take_left, List.drop_left]
  · refine ⟨by omega, ?_, ?_⟩
    · simp only [List.length_append]
      omega
    · simp only [List.length_append]
      push_cast
      omega

/-- With a non-zero entry count, the group-mode normalizer is the wrapped
group-mode loop. -/
theorem runNormalizer_group_eq (useMin : Bool) (groupPtr userAttribute keyAttribute : Str)
    (search : SearchReq → List Entry) (entries : List Entry)
    (h0 : ¬entries.length = 0) :
    runNormalizer true useMin groupPtr userAttribute keyAttribute search entries
      = match runGroupMode useMin groupPtr userAttribute search entries with
        | (RunResult.ok us, qs) => (RunResult.ok (Output.users us), qs)
        | (RunResult.fatal err, qs) => (RunResult.fatal err, qs)
        | (RunResult.panicked, qs) => (RunResult.panicked, qs) := by
  unfold runNormalizer
  rw [if_neg h0]
  simp

/-- With a non-zero entry count, group mode never raises a classified
error in this model. -/
theorem runNormalizer_group_ne_fatal (useMin : Bool) (groupPtr userAttribute keyAttribute : Str)
    (search : SearchReq → List Entry) (entries : List Entry)
    (h0 : ¬entries.length = 0) (err : MainError) :
    (runNormalizer true useMin groupPtr userAttribute keyAttribute search entries).1
      ≠ RunResult.fatal err := by
  intro hcontra
  rw [runNormalizer_group_eq useMin groupPtr userAttribute keyAttribute search entries h0] at hcontra
  rcases hg : runGroupMode useMin groupPtr userAttribute search entries with ⟨rr, qs⟩
  rw [hg] at hcontra
  cases rr with
  | ok us => simp at hcontra
  | fatal err2 =>
    exact runGroupMode_ne_fatal useMin groupPtr userAttribute search entries err2 (by rw [hg])
  | panicked => simp at hcontra

/-! The claims. -/

/-- Claim C1: when the directory search returns more than one entry,
`SingleUser` mode (`listUsers = false`) fails with the `QueryError`
"Too many entries returned from LDAP"; `GroupMembers` mode
(`listUsers = true`) accepts the same entry count without a cardinality
error, and a successful normalization processes every entry, producing one
user per entry. -/
theorem C1_multi_entry_cardinality (useMin : Bool) (groupPtr userAttribute keyAttribute : Str)
    (search : SearchReq → List Entry) (entries : List Entry)
    (h : 1 < entries.length) :
    (runNormalizer false useMin groupPtr userAttribute keyAttribute search entries).1
        = RunResult.fatal (MainError.queryError tooManyMsg)
    ∧ (runNormalizer true useMin groupPtr userAttribute keyAttribute search entries).1
        ≠ RunResult.fatal (MainError.queryError tooManyMsg)
    ∧ (runNormalizer true useMin groupPtr userAttribute keyAttribute search entries).1
        ≠ RunResult.fatal (MainError.queryError noEntriesMsg)
    ∧ ∀ us, (runGroupMode useMin groupPtr userAttribute search entries).1 = RunResult.ok us →
        (runNormalizer true useMin groupPtr userAttribute keyAttribute search entries).1
            = RunResult.ok (Output.users us)
        ∧ us.length = entries.length := by
  have h0 : ¬entries.length = 0 := by omega
  have hd : decide (1 < entries.length) = true := decide_eq_true h
  refine ⟨?_, ?_, ?_, ?_⟩
  · simp [runNormalizer, h0, hd, h]
  · exact runNormalizer_group_ne_fatal useMin groupPtr userAttribute keyAttribute search entries h0 _
  · exact runNormalizer_group_ne_fatal useMin groupPtr userAttribute keyAttribute search entries h0 _
  · intro us hus
    refine ⟨?_, runGroupMode_ok_length useMin groupPtr userAttribute search entries us hus⟩
    rw [runNormalizer_group_eq useMin groupPtr userAttribute keyAttribute search entries h0]
    rcases hg : runGroupMode useMin groupPtr userAttribute search entries with ⟨rr, qs⟩
    rw [hg] at hus
    cases rr with
    | ok us2 =>
      simp at hus
      rw [hus]
    | fatal err2 => simp at hus
    | panicked => simp at hus

/-- Witness for C1: a concrete two-entry result is rejected in single-user
mode and fully normalized in group mode. -/
theorem C1_multi_entry_cardinality_witness :
    (runNormalizer false false adminsName uidAttr keyAttrName emptySearch [sampleEntry, sampleEntry]).1
        = RunResult.fatal (MainError.queryError tooManyMsg)
    ∧ (runNormalizer true false adminsName uidAttr keyAttrName emptySearch [sampleEntry, sampleEntry]).1
        = RunResult.ok (Output.users [sampleUserEmpty, sampleUserEmpty])
    ∧ [sampleUserEmpty, sampleUserEmpty].length = [sampleEntry, sampleEntry].length := by
  have h := C1_multi_entry_cardinality false adminsName uidAttr keyAttrName emptySearch
    [sampleEntry, sampleEntry] (by decide)
  have h4 := h.2.2.2 [sampleUserEmpty, sampleUserEmpty] (by decide)
  exact ⟨h.1, h4.1, h4.2⟩

/-- Claim C2: a directory search returning zero entries is fatal with the
`QueryError` "No entries returned from LDAP" in both modes; no output is
produced and no fallback query is issued. -/
theorem C2_zero_entries_query_error (listUsers useMin : Bool)
    (groupPtr userAttribute keyAttribute : Str)
    (search : SearchReq → List Entry) (entries : List Entry)
    (h : entries.length = 0) :
    runNormalizer listUsers useMin groupPtr userAttribute keyAttribute search entries
        = (RunResult.fatal (MainError.queryError noEntriesMsg), [])
    ∧ ∀ o, (runNormalizer listUsers useMin groupPtr userAttribute keyAttribute search entries).1
        ≠ RunResult.ok o := by
  have h1 : runNormalizer listUsers useMin groupPtr userAttribute keyAttribute search entries
      = (RunResult.fatal (MainError.queryError noEntriesMsg), []) := by
    unfold runNormalizer
    rw [if_pos h]
  refine ⟨h1, fun o ho => ?_⟩
  rw [h1] at ho
  simp at ho

/-- Witness for C2 at the concrete empty result, in both modes. -/
theorem C2_zero_entries_query_error_witness :
    runNormalizer false false adminsName uidAttr keyAttrName emptySearch []
        = (RunResult.fatal (MainError.queryError noEntriesMsg), [])
    ∧ runNormalizer true false adminsName uidAttr keyAttrName emptySearch []
        = (RunResult.fatal (MainError.queryError noEntriesMsg), []) :=
  ⟨(C2_zero_entries_query_error false false adminsName uidAttr keyAttrName emptySearch [] rfl).1,
   (C2_zero_entries_query_error true false adminsName uidAttr keyAttrName emptySearch [] rfl).1⟩

/-- Claim C3: for a membership string `cn=<name>,<rest>` whose `<name>`
part is comma-free (so the displayed comma is the first), extraction
returns exactly `<name>`, for every `<rest>`. -/
theorem C3_extract_group_name (name rest : Str) (h : (',' : Char) ∉ name) :
    extractGroupName (cnMarker ++ name ++ commaStr ++ rest) = some name := by
  have hca : cnMarker ++ name ++ commaStr ++ rest = cnMarker ++ ((name ++ commaStr) ++ rest) := by
    simp [List.append_assoc]
  have hcb : cnMarker ++ name ++ commaStr ++ rest = (cnMarker ++ name) ++ (',' :: rest) := by
    rw [commaStr_eq]
    simp [List.append_assoc]
  have hnotin : (',' : Char) ∉ cnMarker ++ name := by
    intro hm
    rcases List.mem_append.mp hm with hc | hc
    · revert hc
      decide
    · exact h hc
  have hcn : goIndex (cnMarker ++ name ++ commaStr ++ rest) cnMarker = 0 := by
    unfold goIndex
    rw [hca, findSub_append_self cnMarker ((name ++ commaStr) ++ rest) (by decide)]
    rfl
  have hcomma : goIndex (cnMarker ++ name ++ commaStr ++ rest) commaStr
      = (((cnMarker ++ name).length : Nat) : Int) := by
    unfold goIndex
    rw [hcb, commaStr_eq, findSub_singleton_append ',' (cnMarker ++ name) rest hnotin]
  unfold extractGroupName
  rw [hcn, hcomma, zero_add, hcb]
  have hmid := goSlice_middle cnMarker name (',' :: rest)
  rw [← List.append_assoc] at hmid
  exact hmid

/-- Witness for C3 at the concrete DN `cn=admins,ou=groups,dc=example,dc=com`. -/
theorem C3_extract_group_name_witness :
    extractGroupName (cnMarker ++ adminsName ++ commaStr ++ restDN) = some adminsName :=
  C3_extract_group_name adminsName restDN (by decide)

/-- Claim C4: an identity value containing `@` is normalized to its prefix
before the first `@`; a value without `@` is kept verbatim. -/
theorem C4_normalize_identity (s : Str) :
    ((('@' : Char) ∈ s) → normalizeUid s = s.takeWhile (fun c => c != '@'))
    ∧ ((('@' : Char) ∉ s) → normalizeUid s = s) := by
  constructor
  · intro hmem
    have hc : containsSub s atStr = true := by
      rw [atStr_eq]
      exact (findSub_singleton_isSome '@' s).mpr hmem
    unfold normalizeUid
    rw [hc]
    simp only [if_true]
    exact goSplit_headD '@' s
  · intro hmem
    have hc : containsSub s atStr = false := by
      rw [atStr_eq]
      show (findSub ['@'] s).isSome = false
      rw [Bool.eq_false_iff]
      intro ht
      exact hmem ((findSub_singleton_isSome '@' s).mp ht)
    unfold normalizeUid
    rw [hc]
    simp

/-- Witness for C4 at an email-shaped and a plain identity. -/
theorem C4_normalize_identity_witness :
    normalizeUid bobEmail = bobEmail.takeWhile (fun c => c != '@')
    ∧ normalizeUid aliceStr = aliceStr :=
  ⟨(C4_normalize_identity bobEmail).1 (by decide),
   (C4_normalize_identity aliceStr).2 (by decide)⟩

/-- Claim C5: in minimal-attributes group mode, an entry carrying an
identity value (whose own `memberOf` list is empty, as it is for entries of
the minimal projection) triggers exactly one fallback query — filtered on
the configured identity attribute's first value, requesting only
`memberOf`, over the same search connection — and the raw membership values
used for that member are the fallback result's values (the `memberOf`
values of its last entry), not the entry's own. -/
theorem C5_fallback_query (groupPtr userAttribute v : Str) (vs : List Str)
    (search : SearchReq → List Entry) (entry : Entry)
    (hval : getAttributeValues entry userAttribute = v :: vs)
    (hOwn : getAttributeValues entry memberOfAttr = []) :
    (processEntry true groupPtr userAttribute search entry).2
        = [⟨userAttribute, v, [memberOfAttr]⟩]
    ∧ (resolveRawMemberOf true userAttribute search entry).1
        = RunResult.ok (((search ⟨userAttribute, v, [memberOfAttr]⟩).map
            (fun ue => getAttributeValues ue memberOfAttr)).getLastD []) := by
  have hres : resolveRawMemberOf true userAttribute search entry
      = (RunResult.ok ((search ⟨userAttribute, v, [memberOfAttr]⟩).foldl
            (fun _ ue => getAttributeValues ue memberOfAttr) []),
          [⟨userAttribute, v, [memberOfAttr]⟩]) := by
    unfold resolveRawMemberOf
    rw [hOwn, hval]
    rfl
  constructor
  · simp [processEntry, hres]
  · rw [hres]
    rw [foldl_replace_getLastD]

/-- Witness for C5: a minimal-projection entry for `alice`, with a fallback
directory answering with `sampleEntry`. -/
theorem C5_fallback_query_witness :
    (processEntry true adminsName uidAttr fallbackStub minimalEntry).2
        = [⟨uidAttr, aliceStr, [memberOfAttr]⟩]
    ∧ (resolveRawMemberOf true uidAttr fallbackStub minimalEntry).1
        = RunResult.ok [sampleDN] := by
  have h := C5_fallback_query adminsName uidAttr aliceStr [] fallbackStub minimalEntry
    (by decide) (by decide)
  refine ⟨h.1, ?_⟩
  rw [h.2]
  decide

/-- Claim C6: an entry whose raw membership list is empty after the
fallback step yields a user whose group list is exactly the single
originally-queried group name; and every successfully built user has a
non-empty group list. -/
theorem C6_empty_membership_substitution (groupPtr : Str) (raw : List Str) (entry : Entry) :
    (∀ u, buildUser groupPtr [] entry = RunResult.ok u → u.MemberOf = [groupPtr])
    ∧ (∀ u, buildUser groupPtr raw entry = RunResult.ok u → u.MemberOf ≠ []) := by
  constructor
  · intro u hu
    have hb : buildUser groupPtr [] entry = RunResult.ok
        { Uid := normalizeUid (getAttributeValue entry uidAttr)
          UidNumber := getAttributeValue entry uidNumberAttr
          GidNumber := getAttributeValue entry gidNumberAttr
          MemberOf := [groupPtr]
          HomeDirectory := getAttributeValue entry homeDirectoryAttr
          Shell := getAttributeValue entry loginShellAttr } := by
      simp [buildUser, extractAll]
    rw [hb] at hu
    injection hu with h2
    subst h2
    rfl
  · intro u hu
    cases hx : extractAll raw with
    | none => simp [buildUser, hx] at hu
    | some ms =>
      simp only [buildUser, hx] at hu
      injection hu with h2
      subst h2
      by_cases hms : ms = [] <;> simp [hms]

/-- Witness for C6 on the `sampleEntry` fixture. -/
theorem C6_empty_membership_substitution_witness :
    sampleUserEmpty.MemberOf = [adminsName] ∧ sampleUserEmpty.MemberOf ≠ [] := by
  have h := C6_empty_membership_substitution adminsName [] sampleEntry
  exact ⟨h.1 sampleUserEmpty (by decide), h.2 sampleUserEmpty (by decide)⟩

/-- Claim C7 (refuted — code bug): the connection is released on every exit
path.  `l.Close()` is deferred at line 113, but every fatal error path goes
through `log.Fatalf`, which calls `os.Exit(1)`; `os.Exit` terminates the
process without running deferred functions.  So on the trust-root-load,
TLS, bind, search and marshal failure paths the deferred close never runs;
it runs only on normal return and on panic unwinding. -/
theorem C7_close_skipped_on_fatal_exit :
    connCloseRuns (mainAfterConn ⟨true, false, true, true, false, true, true, true⟩
        false false [] [] [] emptySearch [sampleEntry]) = false
    ∧ connCloseRuns (mainAfterConn ⟨false, true, true, false, false, true, true, true⟩
        false false [] [] [] emptySearch [sampleEntry]) = false
    ∧ connCloseRuns (mainAfterConn ⟨false, true, true, true, true, false, true, true⟩
        false false [] [] [] emptySearch [sampleEntry]) = false
    ∧ connCloseRuns (mainAfterConn ⟨false, true, true, true, false, true, false, true⟩
        false false [] [] [] emptySearch [sampleEntry]) = false
    ∧ connCloseRuns (mainAfterConn ⟨false, true, true, true, false, true, true, false⟩
        true false adminsName uidAttr keyAttrName emptySearch [sampleEntry]) = false
    ∧ connCloseRuns (mainAfterConn ⟨false, true, true, true, false, true, true, true⟩
        true false adminsName uidAttr keyAttrName emptySearch [sampleEntry]) = true
    ∧ connCloseRuns (mainAfterConn ⟨false, true, true, true, false, true, true, true⟩
        true false adminsName uidAttr keyAttrName emptySearch [noCommaEntry]) = true := by
  decide

/-- Claim C8: group-name extraction is partial — the slice panics exactly
when the value has no comma, or its first comma lies before the end of the
first `cn=` occurrence (Go index `-1` when absent) plus three characters;
it is total on all other values. -/
theorem C8_extraction_partiality (s : Str) :
    extractGroupName s = none
      ↔ (goIndex s commaStr = -1
          ∨ goIndex s commaStr < goIndex s cnMarker + (cnMarker.length : Int)) := by
  have hcn := goIndex_ge_neg_one s cnMarker
  have hc3 : (cnMarker.length : Int) = 3 := by decide
  have hlo : 0 ≤ goIndex s cnMarker + (cnMarker.length : Int) := by omega
  unfold extractGroupName goSlice
  by_cases hcmp : goIndex s cnMarker + (cnMarker.length : Int) ≤ goIndex s commaStr
  · have hcl : goIndex s commaStr < (s.length : Int) :=
      goIndex_lt_length s commaStr (by decide) (by omega)
    rw [if_pos ⟨hlo, hcmp, by omega⟩]
    constructor
    · intro hcon
      simp at hcon
    · intro hr
      exfalso
      rcases hr with h1 | h1 <;> omega
  · rw [if_neg (fun hcond => hcmp hcond.2.1)]
    constructor
    · intro _
      right
      omega
    · intro _
      rfl

/-- Claim C9: in minimal-attributes group mode, an entry with no value for
the configured identity attribute makes the fallback-filter indexing panic
(no classified error, no query issued); in particular this happens whenever
the configured identity attribute is outside the five minimal projection
attributes, since such entries carry no value for it. -/
theorem C9_fallback_index_panic (userAttribute : Str)
    (search : SearchReq → List Entry) (entry : Entry) :
    (getAttributeValues entry userAttribute = [] →
      resolveRawMemberOf true userAttribute search entry = (RunResult.panicked, []))
    ∧ (respectsProjection minimalAttributes entry → userAttribute ∉ minimalAttributes →
      resolveRawMemberOf true userAttribute search entry = (RunResult.panicked, [])) := by
  have hbase : getAttributeValues entry userAttribute = [] →
      resolveRawMemberOf true userAttribute search entry = (RunResult.panicked, []) := by
    intro hv
    unfold resolveRawMemberOf
    rw [hv]
    rfl
  exact ⟨hbase, fun hproj hmem => hbase (hproj userAttribute hmem)⟩

/-- Witness for C9: an attribute-free entry under the minimal projection
with identity attribute `mail`, and a minimal-projection entry lacking a
`mail` value. -/
theorem C9_fallback_index_panic_witness :
    resolveRawMemberOf true mailAttr emptySearch emptyEntry = (RunResult.panicked, [])
    ∧ resolveRawMemberOf true mailAttr emptySearch minimalEntry = (RunResult.panicked, []) :=
  ⟨(C9_fallback_index_panic mailAttr emptySearch emptyEntry).2 (fun a _ => rfl) (by decide),
   (C9_fallback_index_panic mailAttr emptySearch minimalEntry).1 (by decide)⟩

/-- Claim C10: group-mode normalization reads the emitted identity from the
literal attribute `uid` and the membership values from the literal
attribute `memberOf`; the configured identity attribute influences only the
fallback query's filter — two runs whose fallback queries return the same
result produce the same user. -/
theorem C10_literal_attributes (useMin : Bool) (groupPtr ua ua2 : Str)
    (search search2 : SearchReq → List Entry) (entry : Entry) :
    (∀ u, (processEntry useMin groupPtr ua search entry).1 = RunResult.ok u →
        u.Uid = normalizeUid (getAttributeValue entry uidAttr))
    ∧ (resolveRawMemberOf false ua search entry).1
        = RunResult.ok (getAttributeValues entry memberOfAttr)
    ∧ (∀ v vs v2 vs2,
        getAttributeValues entry ua = v :: vs →
        getAttributeValues entry ua2 = v2 :: vs2 →
        search ⟨ua, v, [memberOfAttr]⟩ = search2 ⟨ua2, v2, [memberOfAttr]⟩ →
        (processEntry useMin groupPtr ua search entry).1
            = (processEntry useMin groupPtr ua2 search2 entry).1) := by
  refine ⟨?_, ?_, ?_⟩
  · intro u hu
    rcases hr : resolveRawMemberOf useMin ua search entry with ⟨r, qs⟩
    simp only [processEntry, hr] at hu
    cases r with
    | ok raw =>
      cases hx : extractAll raw with
      | none => simp [buildUser, hx] at hu
      | some ms =>
        simp only [buildUser, hx] at hu
        injection hu with h2
        subst h2
        rfl
    | fatal err => simp at hu
    | panicked => simp at hu
  · simp [resolveRawMemberOf]
  · intro v vs v2 vs2 hv hv2 hs
    cases useMin with
    | false => simp [processEntry, resolveRawMemberOf]
    | true =>
      have hres : resolveRawMemberOf true ua search entry
          = (RunResult.ok ((search ⟨ua, v, [memberOfAttr]⟩).foldl
                (fun _ ue => getAttributeValues ue memberOfAttr)
                (getAttributeValues entry memberOfAttr)),
              [⟨ua, v, [memberOfAttr]⟩]) := by
        unfold resolveRawMemberOf
        rw [hv]
        rfl
      have hres2 : resolveRawMemberOf true ua2 search2 entry
          = (RunResult.ok ((search2 ⟨ua2, v2, [memberOfAttr]⟩).foldl
                (fun _ ue => getAttributeValues ue memberOfAttr)
                (getAttributeValues entry memberOfAttr)),
              [⟨ua2, v2, [memberOfAttr]⟩]) := by
        unfold resolveRawMemberOf
        rw [hv2]
        rfl
      simp only [processEntry, hres, hres2, hs]

/-- Witness for C10: with identity attribute `uid` or `mail` and the same
fallback answer, the produced user is the same. -/
theorem C10_literal_attributes_witness :
    (processEntry true adminsName uidAttr fallbackStub richEntry).1
        = (processEntry true adminsName mailAttr fallbackStub richEntry).1 :=
  (C10_literal_attributes true adminsName uidAttr mailAttr fallbackStub fallbackStub richEntry).2.2
    aliceStr [] bobEmail [] (by decide) (by decide) rfl

end Authkeys
